import Mathlib

/-!
Verification development for the CascadeStudio script-execution and
worker-lifecycle subsystem (server/workers/CascadeWorker.js and
server/services/CascadeService.js).

The JavaScript source is shallowly embedded: module-level mutable state
(currentShapes, currentGUIState) becomes explicit state passing, JS objects
with possibly-absent fields become structures with Option fields, thrown
exceptions and promise rejections become Except, and async round trips
become values describing the observable reply of the worker.  JS numbers are
modelled by the rationals; where the worker computes transcendental values
(Math.sin, Math.cos, Math.PI in the sphere tessellation) the development is
parametrised by abstract functions msin mcos and a constant mpi, since no
claim depends on the numeric values of vertex coordinates.
-/

/-- A JavaScript value as it can appear in a GUIState or be returned by a
GUI-control accessor: a number, boolean, string, or the undefined value. -/
inductive JSValue where
  | num (q : ℚ)
  | bool (b : Bool)
  | str (s : String)
  | undefined
deriving DecidableEq

/-- A GUIState: the JS object mapping control names to values, modelled as an
association list (first binding wins, mirroring unique JS object keys). -/
def GUIState := List (String × JSValue)

instance : DecidableEq GUIState := by
  unfold GUIState
  infer_instance

/-- Property read g[name] on a JS object: the bound value, or none when the
key is absent. -/
def lookupGui (g : GUIState) (name : String) : Option JSValue :=
  match g with
  | [] => none
  | (k, v) :: rest => if k = name then some v else lookupGui rest name

/-- The test currentGUIState[name] !== undefined used by every accessor:
yields the stored value when the key is present and not bound to undefined. -/
def guiDefined (g : GUIState) (name : String) : Option JSValue :=
  match lookupGui g name with
  | some JSValue.undefined => none
  | some v => some v
  | none => none

/-- cascadeFunctions.Slider: currentGUIState[name] !== undefined ?
currentGUIState[name] : defaultValue.  The min and max arguments are accepted
and ignored, as in the source. -/
def Slider (g : GUIState) (name : String) (defaultValue : JSValue)
    (mn mx : JSValue) : JSValue :=
  match guiDefined g name with
  | some v => v
  | none => defaultValue

/-- cascadeFunctions.Checkbox: same resolution rule as Slider. -/
def Checkbox (g : GUIState) (name : String) (defaultValue : JSValue) : JSValue :=
  match guiDefined g name with
  | some v => v
  | none => defaultValue

/-- cascadeFunctions.TextInput: same resolution rule as Slider. -/
def TextInput (g : GUIState) (name : String) (defaultValue : JSValue) : JSValue :=
  match guiDefined g name with
  | some v => v
  | none => defaultValue

/-- cascadeFunctions.Dropdown: currentGUIState[name] !== undefined ?
currentGUIState[name] : options[defaultIndex or 0]; an out-of-range read of
options yields undefined, as in JS. -/
def Dropdown (g : GUIState) (name : String) (options : List JSValue)
    (defaultIndex : Option ℕ) : JSValue :=
  match guiDefined g name with
  | some v => v
  | none =>
      match options.get? (defaultIndex.getD 0) with
      | some v => v
      | none => JSValue.undefined

/-- The type tag and data of a shape object pushed onto currentShapes by the
cascadeFunctions constructors.  Union and Difference results hit the default
branch of mesh generation, which reads none of their fields, so their
children are not recorded here. -/
inductive ShapeKind where
  | box (w h d : ℚ)
  | sphere (radius : ℚ)
  | cylinder (radius height : ℚ)
  | unionShape
  | differenceShape
deriving DecidableEq

/-- A shape as seen by generateMeshData: its kind plus the optional
translation field that cascadeFunctions.Translate assigns. -/
structure Shape where
  kind : ShapeKind
  translation : Option (ℚ × ℚ × ℚ)
deriving DecidableEq

/-- One leveled log entry: level is one of log, warn, error. -/
structure LogEntry where
  level : String
  message : String
deriving DecidableEq

/-- A statement of a straight-line CascadeStudio script: one call to an
injected binding, in source order.  This is the fragment of script texts the
claims quantify over; each constructor is executed exactly as the
corresponding injected function of createExecutionContext. -/
inductive Stmt where
  | box (w h d : ℚ)
  | sphere (radius : ℚ)
  | cylinder (radius height : ℚ)
  | slider (name : String) (defaultValue mn mx : JSValue)
  | checkbox (name : String) (defaultValue : JSValue)
  | textInput (name : String) (defaultValue : JSValue)
  | dropdown (name : String) (options : List JSValue) (defaultIndex : Option ℕ)
  | consoleLog (msg : String)
  | throwErr (msg : String)

/-- The worker-local mutable state during one executeCode call:
currentShapes, currentGUIState, and the list of log messages the injected
context console has posted to parentPort. -/
structure WorkerRunState where
  shapes : List Shape
  gui : GUIState
  posted : List LogEntry
deriving DecidableEq

/-- Execute one statement: shape constructors append to currentShapes,
accessors compute a value from currentGUIState and discard it (the source
accessors only read; they never write the state), the context console posts
a log message, and a thrown error aborts with its message. -/
def runStmt (st : WorkerRunState) : Stmt → WorkerRunState × Option String
  | Stmt.box w h d =>
      ({ st with shapes := st.shapes ++ [⟨ShapeKind.box w h d, none⟩] }, none)
  | Stmt.sphere r =>
      ({ st with shapes := st.shapes ++ [⟨ShapeKind.sphere r, none⟩] }, none)
  | Stmt.cylinder r h =>
      ({ st with shapes := st.shapes ++ [⟨ShapeKind.cylinder r h, none⟩] }, none)
  | Stmt.slider name d mn mx =>
      let _ := Slider st.gui name d mn mx
      (st, none)
  | Stmt.checkbox name d =>
      let _ := Checkbox st.gui name d
      (st, none)
  | Stmt.textInput name d =>
      let _ := TextInput st.gui name d
      (st, none)
  | Stmt.dropdown name opts idx =>
      let _ := Dropdown st.gui name opts idx
      (st, none)
  | Stmt.consoleLog msg =>
      ({ st with posted := st.posted ++ [⟨"log", msg⟩] }, none)
  | Stmt.throwErr msg => (st, some msg)

/-- Run the statements in order, stopping at the first thrown error. -/
def runStmts (st : WorkerRunState) : List Stmt → WorkerRunState × Option String
  | [] => (st, none)
  | s :: rest =>
      match runStmt st s with
      | (st', none) => runStmts st' rest
      | (st', some e) => (st', some e)

/-- The success object executeCode returns: success true, the value returned
by the constructed function (undefined for a statement script), currentShapes,
the captured logs array, and currentGUIState. -/
structure EvalSuccess where
  result : JSValue
  shapes : List Shape
  logs : List LogEntry
  guiState : GUIState
deriving DecidableEq

/-- The two shapes of object executeCode can return: the success record, or
the catch-block record carrying only the error message and a fresh logs
array. -/
inductive EvalOutcome where
  | ok (s : EvalSuccess)
  | err (error : String) (logs : List LogEntry)
deriving DecidableEq

/-- CascadeWorker executeCode: createExecutionContext resets currentShapes to
empty and currentGUIState to the caller guiState, the script runs with the
context bindings, and the result is either the success record or, on a fault,
the catch record whose logs array is the literal list holding one error entry
with the fault message.  The second component is the list of log messages the
context console posted to parentPort during the run; the captured logs array
only ever records calls to the module-global console, which the script cannot
reach because its console name is bound to the context console, so it is
empty on success. -/
def executeCode (stmts : List Stmt) (guiState : GUIState) :
    EvalOutcome × List LogEntry :=
  let st0 : WorkerRunState := ⟨[], guiState, []⟩
  match runStmts st0 stmts with
  | (st, none) =>
      (EvalOutcome.ok ⟨JSValue.undefined, st.shapes, [], st.gui⟩, st.posted)
  | (st, some msg) =>
      (EvalOutcome.err msg [⟨"error", msg⟩], st.posted)

/-- The parameter names of the function executeCode constructs: the keys of
the context object of createExecutionContext, in insertion order — the ten
cascadeFunctions followed by console. -/
def contextKeys : List String :=
  ["Box", "Sphere", "Cylinder", "Translate", "Union", "Difference",
   "Slider", "Checkbox", "TextInput", "Dropdown", "console"]

/-- Ambient bindings of the Node.js global scope that remain visible inside a
function built with the Function constructor: such a function closes over the
global scope, not the module scope, so unshadowed identifiers resolve there.
This list names the globals relevant to the isolation claims. -/
def nodeGlobals : List String :=
  ["globalThis", "global", "process", "eval", "Function", "setTimeout"]

/-- How an identifier resolves inside the script executed by executeCode. -/
inductive NameResolution where
  | injected
  | ambient
  | unbound
deriving DecidableEq

/-- Scope resolution for the function built by new Function(...keys, code):
the declared parameters shadow the global scope, and every identifier not
among them resolves in the ambient global scope when bound there. -/
def resolveName (n : String) : NameResolution :=
  if n ∈ contextKeys then NameResolution.injected
  else if n ∈ nodeGlobals then NameResolution.ambient
  else NameResolution.unbound

/-- The fixed segment count of the mock sphere tessellation. -/
def sphereSegments : ℕ := 16

/-- The eight box corner vertices generateMeshData emits for a Box shape,
as a flat coordinate list. -/
def boxVertices (w h d : ℚ) : List ℚ :=
  [-w/2, -h/2, -d/2,  w/2, -h/2, -d/2,  w/2,  h/2, -d/2, -w/2,  h/2, -d/2,
   -w/2, -h/2,  d/2,  w/2, -h/2,  d/2,  w/2,  h/2,  d/2, -w/2,  h/2,  d/2]

/-- The twelve box triangles of generateMeshData. -/
def boxIndices : List ℕ :=
  [0,1,2, 0,2,3,
   4,7,6, 4,6,5,
   0,4,5, 0,5,1,
   2,6,7, 2,7,3,
   0,3,7, 0,7,4,
   1,5,6, 1,6,2]

/-- The box normals: new Array(shapeVertices.length).fill(0). -/
def boxNormals (w h d : ℚ) : List ℚ :=
  List.replicate (boxVertices w h d).length 0

/-- One sphere vertex of the mock tessellation, with Math.sin, Math.cos and
Math.PI abstracted as msin, mcos and mpi. -/
def sphereVertexTriple (msin mcos : ℚ → ℚ) (mpi radius : ℚ) (i j : ℕ) :
    ℚ × ℚ × ℚ :=
  let phi : ℚ := ((i : ℚ) / (sphereSegments : ℚ)) * mpi
  let theta : ℚ := ((j : ℚ) / (sphereSegments : ℚ)) * 2 * mpi
  (radius * msin phi * mcos theta,
   radius * msin phi * msin theta,
   radius * mcos phi)

/-- The sphere vertex buffer: the nested i and j loops, both running from 0
to sphereSegments inclusive, each pushing one coordinate triple. -/
def sphereVertices (msin mcos : ℚ → ℚ) (mpi radius : ℚ) : List ℚ :=
  (List.range (sphereSegments + 1)).flatMap fun i =>
    (List.range (sphereSegments + 1)).flatMap fun j =>
      let t := sphereVertexTriple msin mcos mpi radius i j
      [t.1, t.2.1, t.2.2]

/-- The sphere normal buffer: each vertex coordinate divided by the radius. -/
def sphereNormals (msin mcos : ℚ → ℚ) (mpi radius : ℚ) : List ℚ :=
  (List.range (sphereSegments + 1)).flatMap fun i =>
    (List.range (sphereSegments + 1)).flatMap fun j =>
      let t := sphereVertexTriple msin mcos mpi radius i j
      [t.1 / radius, t.2.1 / radius, t.2.2 / radius]

/-- The sphere index buffer: for i and j below sphereSegments, first is
i * (segments + 1) + j, second is first + segments + 1, and two triangles
are pushed. -/
def sphereIndices : List ℕ :=
  (List.range sphereSegments).flatMap fun i =>
    (List.range sphereSegments).flatMap fun j =>
      let first := i * (sphereSegments + 1) + j
      let second := first + sphereSegments + 1
      [first, second, first + 1, second, second + 1, first + 1]

/-- The default-branch triangle vertices of generateMeshData. -/
def defaultVertices : List ℚ := [0, 0, 0, 1, 0, 0, 1/2, 1, 0]

/-- The default-branch triangle indices. -/
def defaultIndices : List ℕ := [0, 1, 2]

/-- The default-branch triangle normals. -/
def defaultNormals : List ℚ := [0, 0, 1, 0, 0, 1, 0, 0, 1]

/-- The per-shape branch of generateMeshData: Box and Sphere shapes get their
dedicated mock meshes, every other type falls to the default triangle. -/
def shapeMeshData (msin mcos : ℚ → ℚ) (mpi : ℚ) (s : Shape) :
    List ℚ × List ℕ × List ℚ :=
  match s.kind with
  | ShapeKind.box w h d => (boxVertices w h d, boxIndices, boxNormals w h d)
  | ShapeKind.sphere r =>
      (sphereVertices msin mcos mpi r, sphereIndices,
       sphereNormals msin mcos mpi r)
  | _ => (defaultVertices, defaultIndices, defaultNormals)

/-- The translation loop: adds the translation vector to each coordinate
triple (the buffers this is applied to always have length a multiple of
three). -/
def translateChunks (t : ℚ × ℚ × ℚ) : List ℚ → List ℚ
  | x :: y :: z :: rest =>
      (x + t.1) :: (y + t.2.1) :: (z + t.2.2) :: translateChunks t rest
  | rest => rest

/-- Apply the optional shape.translation field to a vertex buffer. -/
def applyTranslation (tr : Option (ℚ × ℚ × ℚ)) (vs : List ℚ) : List ℚ :=
  match tr with
  | some t => translateChunks t vs
  | none => vs

/-- The combined mesh generateMeshData returns; the typed arrays of the
source are modelled as lists. -/
structure MeshData where
  vertices : List ℚ
  indices : List ℕ
  normals : List ℚ
  shapeCount : ℕ
deriving DecidableEq

/-- The loop state of generateMeshData: the three accumulated buffers and
the running vertexOffset. -/
structure MeshAcc where
  vertices : List ℚ
  indices : List ℕ
  normals : List ℚ
  vertexOffset : ℕ

/-- One iteration of the shapes.forEach loop of generateMeshData: build the
mock mesh for the shape, apply its translation, append the buffers, shift
the shape indices by the current vertexOffset, and advance the offset by the
number of vertices pushed. -/
def meshStep (msin mcos : ℚ → ℚ) (mpi : ℚ) (acc : MeshAcc) (s : Shape) :
    MeshAcc :=
  let d := shapeMeshData msin mcos mpi s
  let shapeVertices := applyTranslation s.translation d.1
  { vertices := acc.vertices ++ shapeVertices,
    indices := acc.indices ++ d.2.1.map (fun index => index + acc.vertexOffset),
    normals := acc.normals ++ d.2.2,
    vertexOffset := acc.vertexOffset + shapeVertices.length / 3 }

/-- CascadeWorker generateMeshData: fold the per-shape step over the shape
list starting from empty buffers and offset zero.  The maxDeviation
parameter is accepted and, as in the source, never read. -/
def generateMeshData (msin mcos : ℚ → ℚ) (mpi : ℚ) (shapes : List Shape)
    (maxDeviation : ℚ) : MeshData :=
  let acc := shapes.foldl (meshStep msin mcos mpi) ⟨[], [], [], 0⟩
  ⟨acc.vertices, acc.indices, acc.normals, shapes.length⟩

/-- A mesh object as handed to the codec methods: any of the three buffer
fields may be absent. -/
structure CodecMesh where
  vertices : Option (List ℚ)
  indices : Option (List ℕ)
  normals : Option (List ℚ)
deriving DecidableEq

/-- Render a possibly-absent number the way a JS template literal does:
an absent (undefined) element prints as the text undefined.  Exact double
formatting is abstracted by the rational ToString instance. -/
def showOptQ : Option ℚ → String
  | some q => toString q
  | none => "undefined"

/-- Group the index buffer in threes the way the i += 3 loops read it: a
trailing partial chunk reads past the end of the buffer, which in JS yields
undefined, modelled by none. -/
def indexTriples : List ℕ → List (Option ℕ × Option ℕ × Option ℕ)
  | a :: b :: c :: rest => (some a, some b, some c) :: indexTriples rest
  | [] => []
  | [a] => [(some a, none, none)]
  | [a, b] => [(some a, some b, none)]

/-- The vertex part of one STL facet line: vertices[i], vertices[i+1],
vertices[i+2] for a base offset i; a NaN offset (from a partial index chunk)
reads undefined three times. -/
def stlVertexText (vertices : List ℚ) : Option ℕ → String
  | some i =>
      "vertex " ++ showOptQ (vertices.get? i) ++ " " ++
        showOptQ (vertices.get? (i + 1)) ++ " " ++
        showOptQ (vertices.get? (i + 2))
  | none => "vertex undefined undefined undefined"

/-- The facet normal components: normals[i] and the two following entries
when normals.length > i, else the default 0 0 1 (also taken when the offset
is NaN, since a comparison with NaN is false). -/
def stlNormalText (normals : List ℚ) : Option ℕ → String
  | some i =>
      if normals.length > i then
        showOptQ (normals.get? i) ++ " " ++ showOptQ (normals.get? (i + 1)) ++
          " " ++ showOptQ (normals.get? (i + 2))
      else "0 0 1"
  | none => "0 0 1"

/-- One facet block of meshToSTL for one index triple: each index is scaled
by three to a coordinate offset. -/
def stlFacetBlock (vertices normals : List ℚ)
    (t : Option ℕ × Option ℕ × Option ℕ) : String :=
  let i1 := t.1.map (fun n => n * 3)
  let i2 := t.2.1.map (fun n => n * 3)
  let i3 := t.2.2.map (fun n => n * 3)
  "  facet normal " ++ stlNormalText normals i1 ++ "\n" ++
  "    outer loop\n" ++
  "      " ++ stlVertexText vertices i1 ++ "\n" ++
  "      " ++ stlVertexText vertices i2 ++ "\n" ++
  "      " ++ stlVertexText vertices i3 ++ "\n" ++
  "    endloop\n" ++
  "  endfacet\n"

/-- CascadeService.meshToSTL: throws when meshData, meshData.vertices or
meshData.indices is absent, otherwise emits the solid wrapper around one
facet block per index triple.  normals defaults to the empty buffer. -/
def meshToSTL (meshData : Option CodecMesh) : Except String String :=
  match meshData with
  | none => Except.error "Invalid mesh data for STL export"
  | some m =>
      match m.vertices, m.indices with
      | some vertices, some indices =>
          let normals := m.normals.getD []
          Except.ok ("solid CascadeStudioExport\n" ++
            String.join ((indexTriples indices).map
              (stlFacetBlock vertices normals)) ++
            "endsolid CascadeStudioExport\n")
      | _, _ => Except.error "Invalid mesh data for STL export"

/-- One output line of meshToOBJ, kept structured so that the emission order
and the index arithmetic are visible; renderObjLine gives the printed text. -/
inductive ObjLine where
  | header
  | vtx (x y z : Option ℚ)
  | nrm (x y z : Option ℚ)
  | facePlain (a b c : Option ℕ)
  | faceNormals (a b c : Option ℕ)
deriving DecidableEq

/-- The v lines: one per coordinate triple of the vertex buffer, in buffer
order; a trailing partial triple prints undefined for the missing entries. -/
def objVertexLines : List ℚ → List ObjLine
  | x :: y :: z :: rest =>
      ObjLine.vtx (some x) (some y) (some z) :: objVertexLines rest
  | [] => []
  | [x] => [ObjLine.vtx (some x) none none]
  | [x, y] => [ObjLine.vtx (some x) (some y) none]

/-- The vn lines, emitted from the normal buffer the same way. -/
def objNormalLines : List ℚ → List ObjLine
  | x :: y :: z :: rest =>
      ObjLine.nrm (some x) (some y) (some z) :: objNormalLines rest
  | [] => []
  | [x] => [ObjLine.nrm (some x) none none]
  | [x, y] => [ObjLine.nrm (some x) (some y) none]

/-- The f lines: each index is incremented by one (the 0-based to 1-based
shift); with normals present the doubled v//v form is used.  A partial
trailing chunk adds one to undefined, which is NaN, modelled by none. -/
def objFaceLines (hasNormals : Bool) : List ℕ → List ObjLine
  | a :: b :: c :: rest =>
      (if hasNormals then
        ObjLine.faceNormals (some (a + 1)) (some (b + 1)) (some (c + 1))
      else
        ObjLine.facePlain (some (a + 1)) (some (b + 1)) (some (c + 1))) ::
        objFaceLines hasNormals rest
  | [] => []
  | [a] =>
      [if hasNormals then ObjLine.faceNormals (some (a + 1)) none none
       else ObjLine.facePlain (some (a + 1)) none none]
  | [a, b] =>
      [if hasNormals then
        ObjLine.faceNormals (some (a + 1)) (some (b + 1)) none
       else ObjLine.facePlain (some (a + 1)) (some (b + 1)) none]

/-- Render a face index component; an absent component prints NaN. -/
def showFaceIdx : Option ℕ → String
  | some n => toString n
  | none => "NaN"

/-- Render one component of a doubled v//v face reference. -/
def showFaceIdxDouble (n : Option ℕ) : String :=
  showFaceIdx n ++ "//" ++ showFaceIdx n

/-- The printed text of one OBJ line. -/
def renderObjLine : ObjLine → String
  | ObjLine.header => "# CascadeStudio Generated OBJ File"
  | ObjLine.vtx x y z =>
      "v " ++ showOptQ x ++ " " ++ showOptQ y ++ " " ++ showOptQ z
  | ObjLine.nrm x y z =>
      "vn " ++ showOptQ x ++ " " ++ showOptQ y ++ " " ++ showOptQ z
  | ObjLine.facePlain a b c =>
      "f " ++ showFaceIdx a ++ " " ++ showFaceIdx b ++ " " ++ showFaceIdx c
  | ObjLine.faceNormals a b c =>
      "f " ++ showFaceIdxDouble a ++ " " ++ showFaceIdxDouble b ++ " " ++
        showFaceIdxDouble c

/-- The full line sequence of meshToOBJ: the header comment, all v lines,
the vn lines when the normal buffer is nonempty, then all f lines. -/
def objLines (vertices : List ℚ) (indices : List ℕ) (normals : List ℚ) :
    List ObjLine :=
  ObjLine.header :: (objVertexLines vertices ++
    (if normals.length > 0 then objNormalLines normals else []) ++
    objFaceLines (normals.length > 0) indices)

/-- CascadeService.meshToOBJ: throws when meshData, meshData.vertices or
meshData.indices is absent, otherwise prints every line of objLines followed
by a newline. -/
def meshToOBJ (meshData : Option CodecMesh) : Except String String :=
  match meshData with
  | none => Except.error "Invalid mesh data for OBJ export"
  | some m =>
      match m.vertices, m.indices with
      | some vertices, some indices =>
          let normals := m.normals.getD []
          Except.ok (String.join ((objLines vertices indices normals).map
            (fun l => renderObjLine l ++ "\n")))
      | _, _ => Except.error "Invalid mesh data for OBJ export"

/-- One entry of the CascadeService activeWorkers map. -/
structure WorkerInfo where
  id : String
  createdAt : ℕ
  busy : Bool
deriving DecidableEq

/-- The CascadeService instance state: the activeWorkers map (association
list with unique keys, mirroring a JS Map), the configured maxWorkers and
workerTimeout fields, and the list of worker ids on which terminate has been
called (the model of the side effect of worker.terminate()). -/
structure ServiceState where
  activeWorkers : List (String × WorkerInfo)
  maxWorkers : ℕ
  workerTimeout : ℕ
  terminated : List String
deriving DecidableEq

/-- Map.get on the activeWorkers map. -/
def mapGet (m : List (String × WorkerInfo)) (k : String) : Option WorkerInfo :=
  match m with
  | [] => none
  | (k', v) :: rest => if k' = k then some v else mapGet rest k

/-- Map.set on the activeWorkers map: overwrite an existing key, else
append. -/
def mapSet (m : List (String × WorkerInfo)) (k : String) (v : WorkerInfo) :
    List (String × WorkerInfo) :=
  match m with
  | [] => [(k, v)]
  | (k', v') :: rest =>
      if k' = k then (k, v) :: rest else (k', v') :: mapSet rest k v

/-- Map.delete on the activeWorkers map (keys are unique, so removing every
binding of the key removes the one entry). -/
def mapDelete (m : List (String × WorkerInfo)) (k : String) :
    List (String × WorkerInfo) :=
  match m with
  | [] => []
  | (k', v') :: rest =>
      if k' = k then mapDelete rest k else (k', v') :: mapDelete rest k

/-- The typed failures of the service operations, named after the error
taxonomy of the specification.  The promise rejections the source actually
produces are the worker-reported error field, a worker error event, and the
timeout; poolExhausted and invalidMesh exist in the taxonomy, and the source
raises invalidMesh only from the codec guards and poolExhausted never. -/
inductive ServiceError where
  | poolExhausted
  | workerReported (msg : String)
  | workerErrored (msg : String)
  | timedOut
  | invalidMesh (msg : String)
deriving DecidableEq

/-- The CascadeService constructor: empty worker map, maxWorkers 4,
workerTimeout 30000, nothing terminated yet. -/
def initialService : ServiceState := ⟨[], 4, 30000, []⟩

/-- CascadeService.createWorker: allocates a fresh id (passed in, the model
of uuidv4), stores a new non-busy WorkerInfo in activeWorkers, and resolves.
The source checks nothing before creating the worker, so no failure branch
exists; the Except type records that the async operation could reject. -/
def createWorker (s : ServiceState) (workerId : String) (now : ℕ) :
    Except ServiceError (WorkerInfo × ServiceState) :=
  let workerInfo : WorkerInfo := ⟨workerId, now, false⟩
  Except.ok (workerInfo,
    { s with activeWorkers := mapSet s.activeWorkers workerId workerInfo })

/-- The state after a createWorker call (which always succeeds). -/
def afterCreateWorker (s : ServiceState) (workerId : String) (now : ℕ) :
    ServiceState :=
  match createWorker s workerId now with
  | Except.ok (_, s') => s'
  | Except.error _ => s

/-- The workerInfo.busy = true assignment: the map stores the same object
reference, so the stored entry is updated. -/
def markBusy (s : ServiceState) (workerId : String) : ServiceState :=
  match mapGet s.activeWorkers workerId with
  | some wi =>
      { s with activeWorkers :=
          mapSet s.activeWorkers workerId { wi with busy := true } }
  | none => s

/-- CascadeService.terminateWorker: when the id is in the map, call
terminate on the worker (recorded in the terminated list; a terminate error
is caught and only logged) and delete the map entry; otherwise do nothing. -/
def terminateWorker (s : ServiceState) (workerId : String) : ServiceState :=
  match mapGet s.activeWorkers workerId with
  | some _ =>
      { s with activeWorkers := mapDelete s.activeWorkers workerId,
               terminated := s.terminated ++ [workerId] }
  | none => s

/-- The number of live workers. -/
def liveWorkerCount (s : ServiceState) : ℕ := s.activeWorkers.length

/-- The observable behavior of one worker round trip as seen by
sendWorkerMessage: the first message event (with its error field), an error
event, or silence until the timer fires. -/
inductive RoundTrip (R : Type) where
  | message (error : Option String) (payload : R)
  | errorEvent (msg : String)
  | silent

/-- CascadeService.sendWorkerMessage: resolves with the first response
message unless its error field is set (truthy), in which case it rejects
with that message; rejects on a worker error event; rejects with the timeout
error when no response arrives before the timer. -/
def sendWorkerMessage {R : Type} : RoundTrip R → Except ServiceError R
  | RoundTrip.message (some e) _ => Except.error (ServiceError.workerReported e)
  | RoundTrip.message none r => Except.ok r
  | RoundTrip.errorEvent m => Except.error (ServiceError.workerErrored m)
  | RoundTrip.silent => Except.error ServiceError.timedOut

/-- The payload fields of the Evaluate response that executeScript reads. -/
structure EvalResponseMsg where
  logs : Option (List LogEntry)
  guiState : Option GUIState
deriving DecidableEq

/-- The payload fields of the combineAndRenderShapes response. -/
structure MeshResponseMsg where
  meshData : Option CodecMesh
  shapeCount : Option ℕ
deriving DecidableEq

/-- The payload fields of the saveShapeSTEP response. -/
structure StepResponseMsg where
  content : Option String
deriving DecidableEq

/-- The payload fields of the loadFiles response that importFile reads. -/
structure LoadResponseMsg where
  shapeId : Option String
deriving DecidableEq

/-- The success payload of executeScript. -/
structure ExecScriptOk where
  meshData : Option CodecMesh
  logs : List LogEntry
  executionTime : ℕ
  shapeCount : ℕ
  guiState : GUIState
deriving DecidableEq

/-- The success payload of exportSTL and exportOBJ. -/
structure ExportOk where
  content : String
  filename : String
deriving DecidableEq

/-- The success payload of exportSTEP; content is the response content field
(the source falls back to the whole response object when it is absent, an
untyped JS fallback kept as the Option). -/
structure StepExportOk where
  content : Option String
  filename : String
deriving DecidableEq

/-- The success payload of importFile. -/
structure ImportOk where
  shapeId : String
  message : String
deriving DecidableEq

/-- CascadeService.executeScript: create a worker, mark it busy, send
Evaluate then combineAndRenderShapes, build the success record from the two
responses, and in the finally block terminate the worker, whichever way the
body exited. -/
def executeScript (s : ServiceState) (workerId : String) (now : ℕ)
    (guiState : GUIState) (evalRT : RoundTrip EvalResponseMsg)
    (meshRT : RoundTrip MeshResponseMsg) (elapsedMs : ℕ) :
    Except ServiceError ExecScriptOk × ServiceState :=
  match createWorker s workerId now with
  | Except.error e => (Except.error e, s)
  | Except.ok (wi, s1) =>
      let s2 := markBusy s1 wi.id
      let r : Except ServiceError ExecScriptOk :=
        match sendWorkerMessage evalRT with
        | Except.error e => Except.error e
        | Except.ok evalR =>
            match sendWorkerMessage meshRT with
            | Except.error e => Except.error e
            | Except.ok meshR =>
                Except.ok ⟨meshR.meshData, evalR.logs.getD [], elapsedMs,
                  meshR.shapeCount.getD 0, evalR.guiState.getD guiState⟩
      (r, terminateWorker s2 wi.id)

/-- CascadeService.exportSTEP: create a worker, mark it busy, send Evaluate
then saveShapeSTEP, and terminate the worker in the finally block. -/
def exportSTEP (s : ServiceState) (workerId : String) (now : ℕ)
    (evalRT : RoundTrip EvalResponseMsg) (stepRT : RoundTrip StepResponseMsg) :
    Except ServiceError StepExportOk × ServiceState :=
  match createWorker s workerId now with
  | Except.error e => (Except.error e, s)
  | Except.ok (wi, s1) =>
      let s2 := markBusy s1 wi.id
      let r : Except ServiceError StepExportOk :=
        match sendWorkerMessage evalRT with
        | Except.error e => Except.error e
        | Except.ok _ =>
            match sendWorkerMessage stepRT with
            | Except.error e => Except.error e
            | Except.ok stepR => Except.ok ⟨stepR.content, "export.step"⟩
      (r, terminateWorker s2 wi.id)

/-- CascadeService.exportSTL: create a worker, mark it busy, send Evaluate
then combineAndRenderShapes, convert the mesh with meshToSTL (whose throw
propagates out of the try block), and terminate the worker in the finally
block. -/
def exportSTL (s : ServiceState) (workerId : String) (now : ℕ)
    (evalRT : RoundTrip EvalResponseMsg) (meshRT : RoundTrip MeshResponseMsg) :
    Except ServiceError ExportOk × ServiceState :=
  match createWorker s workerId now with
  | Except.error e => (Except.error e, s)
  | Except.ok (wi, s1) =>
      let s2 := markBusy s1 wi.id
      let r : Except ServiceError ExportOk :=
        match sendWorkerMessage evalRT with
        | Except.error e => Except.error e
        | Except.ok _ =>
            match sendWorkerMessage meshRT with
            | Except.error e => Except.error e
            | Except.ok meshR =>
                match meshToSTL meshR.meshData with
                | Except.error m => Except.error (ServiceError.invalidMesh m)
                | Except.ok content => Except.ok ⟨content, "export.stl"⟩
      (r, terminateWorker s2 wi.id)

/-- CascadeService.exportOBJ: as exportSTL with meshToOBJ. -/
def exportOBJ (s : ServiceState) (workerId : String) (now : ℕ)
    (evalRT : RoundTrip EvalResponseMsg) (meshRT : RoundTrip MeshResponseMsg) :
    Except ServiceError ExportOk × ServiceState :=
  match createWorker s workerId now with
  | Except.error e => (Except.error e, s)
  | Except.ok (wi, s1) =>
      let s2 := markBusy s1 wi.id
      let r : Except ServiceError ExportOk :=
        match sendWorkerMessage evalRT with
        | Except.error e => Except.error e
        | Except.ok _ =>
            match sendWorkerMessage meshRT with
            | Except.error e => Except.error e
            | Except.ok meshR =>
                match meshToOBJ meshR.meshData with
                | Except.error m => Except.error (ServiceError.invalidMesh m)
                | Except.ok content => Except.ok ⟨content, "export.obj"⟩
      (r, terminateWorker s2 wi.id)

/-- CascadeService.importFile: create a worker, mark it busy, send
loadFiles, build the status record, and terminate the worker in the finally
block. -/
def importFile (s : ServiceState) (workerId : String) (now : ℕ)
    (filename : String) (loadRT : RoundTrip LoadResponseMsg) :
    Except ServiceError ImportOk × ServiceState :=
  match createWorker s workerId now with
  | Except.error e => (Except.error e, s)
  | Except.ok (wi, s1) =>
      let s2 := markBusy s1 wi.id
      let r : Except ServiceError ImportOk :=
        match sendWorkerMessage loadRT with
        | Except.error e => Except.error e
        | Except.ok loadR =>
            Except.ok ⟨loadR.shapeId.getD filename,
              "Successfully imported " ++ filename⟩
      (r, terminateWorker s2 wi.id)

/-- The alternatives of the validateScript function regex, in source order. -/
def fnNames : List String :=
  ["Box", "Sphere", "Cylinder", "Cone", "Union", "Difference", "Intersection",
   "Translate", "Rotate", "Scale", "Mirror", "Extrude", "Revolve",
   "FilletEdges", "ChamferEdges", "Slider", "Checkbox", "TextInput",
   "Dropdown"]

/-- The whitespace class of the regex (the JS class also holds some exotic
Unicode spaces; the claims only involve ASCII scripts). -/
def isWsChar (c : Char) : Bool := c.isWhitespace

/-- Consume zero or more whitespace characters followed by an opening
parenthesis, returning the remainder. -/
def skipWsParen : List Char → Option (List Char)
  | [] => none
  | c :: cs =>
      if c = '(' then some cs
      else if isWsChar c then skipWsParen cs else none

/-- Try to match one regex alternative at the head of the text: the name
characters, then whitespace, then an opening parenthesis; returns the
remainder after the match. -/
def matchCallAt : List Char → List Char → Option (List Char)
  | [], cs => skipWsParen cs
  | _ :: _, [] => none
  | n :: ns, c :: cs => if c = n then matchCallAt ns cs else none

/-- Try the alternatives in order at the head of the text. -/
def tryNames : List String → List Char → Option (String × List Char)
  | [], _ => none
  | n :: ns, cs =>
      match matchCallAt n.data cs with
      | some rest => some (n, rest)
      | none => tryNames ns cs

/-- The regex exec loop: at each position try to match an alternative; on a
match record the name and continue after the match (lastIndex), otherwise
advance one character.  The fuel argument bounds the number of steps; every
step consumes at least one character, so the text length is enough fuel. -/
def scanAux : ℕ → List Char → List String
  | 0, _ => []
  | _, [] => []
  | fuel + 1, c :: cs =>
      match tryNames fnNames (c :: cs) with
      | some (n, rest) => n :: scanAux fuel rest
      | none => scanAux fuel cs

/-- All regex matches of the validateScript scan over a script text, with
multiplicity, in text order. -/
def scanUsedFunctions (code : String) : List String :=
  scanAux code.data.length code.data

/-- The usedFunctions accumulation: push a name unless already recorded. -/
def dedupPush (acc : List String) (n : String) : List String :=
  if n ∈ acc then acc else acc ++ [n]

/-- Does a name occur anywhere in the text immediately followed by optional
whitespace and an opening parenthesis?  This is the call-site occurrence
notion the scan is meant to report: the matcher succeeds at some suffix. -/
def callSiteOccursIn (name : List Char) : List Char → Bool
  | [] => (matchCallAt name []).isSome
  | c :: cs => (matchCallAt name (c :: cs)).isSome || callSiteOccursIn name cs

/-- The syntax error information of the host JS parser for a script text;
new Function(code) either returns (none) or throws a SyntaxError carrying a
message and optional position.  The parser itself is outside the embedding,
so validateScript takes its outcome as an argument. -/
structure SyntaxErrorInfo where
  message : String
  lineNumber : Option ℕ
  columnNumber : Option ℕ
deriving DecidableEq

/-- One entry of the errors list of a validation result. -/
structure ValidationErrorEntry where
  message : String
  line : Option ℕ
  column : Option ℕ
deriving DecidableEq

/-- The record validateScript resolves with. -/
structure ValidationResult where
  valid : Bool
  errors : List ValidationErrorEntry
  warnings : List ValidationErrorEntry
  usedFunctions : List String
deriving DecidableEq

/-- CascadeService.validateScript: scan the text for vocabulary call sites,
collecting each name at most once; run the syntax-only parse (its outcome is
the parseOutcome argument); on a syntax error push one error entry; valid is
the emptiness of the errors list.  The service state is untouched: the
method reads and writes no worker state. -/
def validateScript (s : ServiceState) (code : String)
    (parseOutcome : Option SyntaxErrorInfo) : ValidationResult × ServiceState :=
  let usedFunctions := (scanUsedFunctions code).foldl dedupPush []
  let errors : List ValidationErrorEntry :=
    match parseOutcome with
    | some e => [⟨e.message, e.lineNumber, e.columnNumber⟩]
    | none => []
  (⟨errors.length == 0, errors, [], usedFunctions⟩, s)

/-- A service state holding four live workers, reached from the constructor
state by four createWorker calls. -/
def fourWorkerState : ServiceState :=
  afterCreateWorker (afterCreateWorker (afterCreateWorker
    (afterCreateWorker initialService "w1" 0) "w2" 0) "w3" 0) "w4" 0

/-- The state after a fifth createWorker call on the four-worker state. -/
def fiveWorkerState : ServiceState := afterCreateWorker fourWorkerState "w5" 0

/-- The vertex count of a mesh: the vertex buffer holds one coordinate
triple per vertex. -/
def meshVertexCount (m : MeshData) : ℕ := m.vertices.length / 3

theorem mapGet_mapSet_self (m : List (String × WorkerInfo)) (k : String)
    (v : WorkerInfo) : mapGet (mapSet m k v) k = some v := by
  induction m with
  | nil => simp [mapSet, mapGet]
  | cons p rest ih =>
      obtain ⟨k', v'⟩ := p
      by_cases h : k' = k
      · simp [mapSet, mapGet, h]
      · simp [mapSet, mapGet, h, ih]

theorem mapGet_mapDelete_self (m : List (String × WorkerInfo)) (k : String) :
    mapGet (mapDelete m k) k = none := by
  induction m with
  | nil => simp [mapDelete, mapGet]
  | cons p rest ih =>
      obtain ⟨k', v'⟩ := p
      by_cases h : k' = k
      · simp [mapDelete, h, ih]
      · simp [mapDelete, mapGet, h, ih]

theorem mapSet_length_of_get_none (m : List (String × WorkerInfo))
    (k : String) (v : WorkerInfo) (h : mapGet m k = none) :
    (mapSet m k v).length = m.length + 1 := by
  induction m with
  | nil => simp [mapSet]
  | cons p rest ih =>
      obtain ⟨k', v'⟩ := p
      by_cases hk : k' = k
      · simp [mapGet, hk] at h
      · simp [mapGet, hk] at h
        simp [mapSet, hk, ih h]

theorem terminateWorker_not_live (s : ServiceState) (wid : String) :
    mapGet (terminateWorker s wid).activeWorkers wid = none := by
  unfold terminateWorker
  cases h : mapGet s.activeWorkers wid with
  | none => simpa [h] using h
  | some wi => simp [h, mapGet_mapDelete_self]

theorem acquired_worker_cleaned (s : ServiceState) (wid : String) (now : ℕ) :
    mapGet (terminateWorker (markBusy (afterCreateWorker s wid now) wid)
      wid).activeWorkers wid = none ∧
    wid ∈ (terminateWorker (markBusy (afterCreateWorker s wid now) wid)
      wid).terminated := by
  refine ⟨terminateWorker_not_live _ _, ?_⟩
  have h1 : mapGet (afterCreateWorker s wid now).activeWorkers wid
      = some ⟨wid, now, false⟩ := by
    simp [afterCreateWorker, createWorker, mapGet_mapSet_self]
  have h2 : mapGet (markBusy (afterCreateWorker s wid now) wid).activeWorkers
      wid = some ⟨wid, now, true⟩ := by
    simp [markBusy, h1, mapGet_mapSet_self]
  simp [terminateWorker, h2]

/-- C3: every orchestrator operation that acquires a worker — executeScript,
exportSTEP, exportSTL, exportOBJ, importFile — terminates that worker and
removes it from the live-worker map on every exit path: whatever the two
round trips reply (success, worker-reported fault, error event, or timeout),
the final service state no longer lists the acquired worker as live and
records it as terminated. -/
theorem orchestrator_ops_always_release_worker (s : ServiceState)
    (wid : String) (now elapsedMs : ℕ) (g : GUIState) (filename : String)
    (evalRT : RoundTrip EvalResponseMsg) (meshRT : RoundTrip MeshResponseMsg)
    (stepRT : RoundTrip StepResponseMsg) (loadRT : RoundTrip LoadResponseMsg) :
    (mapGet (executeScript s wid now g evalRT meshRT
        elapsedMs).2.activeWorkers wid = none ∧
      wid ∈ (executeScript s wid now g evalRT meshRT
        elapsedMs).2.terminated) ∧
    (mapGet (exportSTEP s wid now evalRT stepRT).2.activeWorkers wid = none ∧
      wid ∈ (exportSTEP s wid now evalRT stepRT).2.terminated) ∧
    (mapGet (exportSTL s wid now evalRT meshRT).2.activeWorkers wid = none ∧
      wid ∈ (exportSTL s wid now evalRT meshRT).2.terminated) ∧
    (mapGet (exportOBJ s wid now evalRT meshRT).2.activeWorkers wid = none ∧
      wid ∈ (exportOBJ s wid now evalRT meshRT).2.terminated) ∧
    (mapGet (importFile s wid now filename loadRT).2.activeWorkers wid = none ∧
      wid ∈ (importFile s wid now filename loadRT).2.terminated) := by
  have h1 : (executeScript s wid now g evalRT meshRT elapsedMs).2
      = terminateWorker (markBusy (afterCreateWorker s wid now) wid) wid := rfl
  have h2 : (exportSTEP s wid now evalRT stepRT).2
      = terminateWorker (markBusy (afterCreateWorker s wid now) wid) wid := rfl
  have h3 : (exportSTL s wid now evalRT meshRT).2
      = terminateWorker (markBusy (afterCreateWorker s wid now) wid) wid := rfl
  have h4 : (exportOBJ s wid now evalRT meshRT).2
      = terminateWorker (markBusy (afterCreateWorker s wid now) wid) wid := rfl
  have h5 : (importFile s wid now filename loadRT).2
      = terminateWorker (markBusy (afterCreateWorker s wid now) wid) wid := rfl
  rw [h1, h2, h3, h4, h5]
  exact ⟨acquired_worker_cleaned s wid now, acquired_worker_cleaned s wid now,
    acquired_worker_cleaned s wid now, acquired_worker_cleaned s wid now,
    acquired_worker_cleaned s wid now⟩

/-- C2 (amended): acquiring a worker never fails with PoolExhausted; the
source performs no capacity check, so even when the number of live workers
already equals the configured maxWorkers, createWorker succeeds and the live
count exceeds the maximum. -/
theorem createWorker_ignores_pool_limit (s : ServiceState) (wid : String)
    (now : ℕ) (hfull : liveWorkerCount s = s.maxWorkers)
    (hfresh : mapGet s.activeWorkers wid = none) :
    (createWorker s wid now).isOk = true ∧
    liveWorkerCount (afterCreateWorker s wid now) = s.maxWorkers + 1 := by
  constructor
  · rfl
  · show (mapSet s.activeWorkers wid ⟨wid, now, false⟩).length
      = s.maxWorkers + 1
    rw [mapSet_length_of_get_none s.activeWorkers wid _ hfresh]
    exact congrArg (fun n => n + 1) hfull

/-- Witness for createWorker_ignores_pool_limit at a concrete state holding
maxWorkers live workers. -/
theorem createWorker_ignores_pool_limit_witness :
    liveWorkerCount fourWorkerState = fourWorkerState.maxWorkers ∧
    mapGet fourWorkerState.activeWorkers "w5" = none ∧
    ((createWorker fourWorkerState "w5" 0).isOk = true ∧
      liveWorkerCount (afterCreateWorker fourWorkerState "w5" 0)
        = fourWorkerState.maxWorkers + 1) :=
  ⟨by decide, by decide,
    createWorker_ignores_pool_limit fourWorkerState "w5" 0 (by decide)
      (by decide)⟩

/-- C2 counterexample: with four live workers and maxWorkers = 4, a further
acquisition does not fail with PoolExhausted — it succeeds and leaves five
live workers. -/
theorem createWorker_at_capacity_still_succeeds :
    liveWorkerCount fourWorkerState = 4 ∧
    fourWorkerState.maxWorkers = 4 ∧
    createWorker fourWorkerState "w5" 0
      = Except.ok (⟨"w5", 0, false⟩, fiveWorkerState) ∧
    liveWorkerCount fiveWorkerState = 5 := by
  refine ⟨by decide, by decide, ?_, by decide⟩
  rfl

theorem runStmt_gui (st : WorkerRunState) (s : Stmt) :
    (runStmt st s).1.gui = st.gui := by
  cases s <;> rfl

theorem runStmts_gui (l : List Stmt) : ∀ st : WorkerRunState,
    (runStmts st l).1.gui = st.gui := by
  induction l with
  | nil => intro st; rfl
  | cons s rest ih =>
      intro st
      unfold runStmts
      cases h : runStmt st s with
      | mk st' o =>
          have hg : st'.gui = st.gui := by
            have hh := runStmt_gui st s
            rw [h] at hh
            exact hh
          cases o with
          | none => simpa [ih st'] using hg
          | some e => simpa using hg

theorem executeCode_run_ok (stmts : List Stmt) (g : GUIState)
    (st : WorkerRunState) (h : runStmts ⟨[], g, []⟩ stmts = (st, none)) :
    executeCode stmts g
      = (EvalOutcome.ok ⟨JSValue.undefined, st.shapes, [], st.gui⟩,
         st.posted) := by
  simp only [executeCode]
  rw [h]

theorem executeCode_run_err (stmts : List Stmt) (g : GUIState)
    (st : WorkerRunState) (msg : String)
    (h : runStmts ⟨[], g, []⟩ stmts = (st, some msg)) :
    executeCode stmts g
      = (EvalOutcome.err msg [⟨"error", msg⟩], st.posted) := by
  simp only [executeCode]
  rw [h]

/-- C1 (amended): each GUI-control accessor yields the caller-supplied value
when the control name is defined in the input guiState and the
script-declared default when it is not, but no accessor records the resolved
value: the worker GUIState is never written, so the GUIState returned by a
successful evaluation is exactly the caller-supplied one, and a control only
declared by the script stays absent from it. -/
theorem accessors_resolve_but_never_record (g : GUIState) (name : String)
    (dflt mn mx : JSValue) (options : List JSValue) (idx : Option ℕ) :
    (∀ v : JSValue, guiDefined g name = some v →
      Slider g name dflt mn mx = v ∧ Checkbox g name dflt = v ∧
      TextInput g name dflt = v ∧ Dropdown g name options idx = v) ∧
    (guiDefined g name = none →
      Slider g name dflt mn mx = dflt ∧ Checkbox g name dflt = dflt ∧
      TextInput g name dflt = dflt) ∧
    (∀ (stmts : List Stmt) (res : EvalSuccess) (posted : List LogEntry),
      executeCode stmts g = (EvalOutcome.ok res, posted) → res.guiState = g) := by
  refine ⟨fun v h => ?_, fun h => ?_, fun stmts res posted h => ?_⟩
  · exact ⟨by simp [Slider, h], by simp [Checkbox, h], by simp [TextInput, h],
      by simp [Dropdown, h]⟩
  · exact ⟨by simp [Slider, h], by simp [Checkbox, h], by simp [TextInput, h]⟩
  · cases hr : runStmts ⟨[], g, []⟩ stmts with
    | mk st o =>
        have hg : st.gui = g := by
          have hh := runStmts_gui stmts ⟨[], g, []⟩
          rw [hr] at hh
          exact hh
        cases o with
        | none =>
            rw [executeCode_run_ok stmts g st hr] at h
            have h1 := congrArg Prod.fst h
            simp only [Prod.fst] at h1
            cases h1
            exact hg
        | some e =>
            rw [executeCode_run_err stmts g st e hr] at h
            have h1 := congrArg Prod.fst h
            simp at h1

/-- Witness for accessors_resolve_but_never_record: with guiState binding
Size to 15 the Slider yields 15, with the empty guiState it yields the
declared default 10, and the successful evaluation of a Slider-declaring
script under the empty guiState returns the empty GUIState. -/
theorem accessors_resolve_but_never_record_witness :
    (Slider [("Size", JSValue.num 15)] "Size" (JSValue.num 10)
      (JSValue.num 5) (JSValue.num 20) = JSValue.num 15) ∧
    (Slider [] "Size" (JSValue.num 10) (JSValue.num 5) (JSValue.num 20)
      = JSValue.num 10) ∧
    (⟨JSValue.undefined, [], [],
      ([] : GUIState)⟩ : EvalSuccess).guiState = ([] : GUIState) :=
  ⟨(((accessors_resolve_but_never_record [("Size", JSValue.num 15)] "Size"
      (JSValue.num 10) (JSValue.num 5) (JSValue.num 20) [] none).1
      (JSValue.num 15)) (by decide)).1,
   ((accessors_resolve_but_never_record [] "Size" (JSValue.num 10)
      (JSValue.num 5) (JSValue.num 20) [] none).2.1 (by decide)).1,
   (accessors_resolve_but_never_record [] "Size" (JSValue.num 10)
      (JSValue.num 5) (JSValue.num 20) [] none).2.2
      [Stmt.slider "Size" (JSValue.num 10) (JSValue.num 5) (JSValue.num 20)]
      ⟨JSValue.undefined, [], [], ([] : GUIState)⟩ [] (by decide)⟩

/-- C1 counterexample: evaluating a script declaring
Slider(Size, 10, 5, 20) under the empty guiState succeeds, but the returned
GUIState is the empty one — it does not contain an entry for Size, contrary
to the claim that every declared control is recorded. -/
theorem declared_control_absent_from_returned_guiState :
    executeCode [Stmt.slider "Size" (JSValue.num 10) (JSValue.num 5)
        (JSValue.num 20)] []
      = (EvalOutcome.ok ⟨JSValue.undefined, [], [], ([] : GUIState)⟩, []) ∧
    lookupGui ([] : GUIState) "Size" = none := by
  exact ⟨by decide, by decide⟩

/-- C5 (amended): when a script faults, executeCode returns the failure
record whose logs array holds exactly one error entry carrying the fault
message; the leveled entries emitted before the fault are not in it (they
were posted to parentPort as separate side messages and the catch block
builds a fresh one-entry array).  Moreover, when the worker reports the
fault through the error field of its Evaluate response, sendWorkerMessage
rejects with only that message, so even the one-entry logs array never
reaches the caller of the orchestrator operation. -/
theorem fault_result_carries_only_fault_message (stmts : List Stmt)
    (g : GUIState) (st : WorkerRunState) (msg : String)
    (h : runStmts ⟨[], g, []⟩ stmts = (st, some msg)) :
    executeCode stmts g
      = (EvalOutcome.err msg [⟨"error", msg⟩], st.posted) ∧
    ∀ r : EvalResponseMsg,
      sendWorkerMessage (RoundTrip.message (some msg) r)
        = Except.error (ServiceError.workerReported msg) :=
  ⟨executeCode_run_err stmts g st msg h, fun _ => rfl⟩

/-- Witness for fault_result_carries_only_fault_message on a script that
logs before faulting. -/
theorem fault_result_carries_only_fault_message_witness :
    (executeCode [Stmt.consoleLog "first", Stmt.throwErr "boom"] []
      = (EvalOutcome.err "boom" [⟨"error", "boom"⟩], [⟨"log", "first"⟩]) ∧
    ∀ r : EvalResponseMsg,
      sendWorkerMessage (RoundTrip.message (some "boom") r)
        = Except.error (ServiceError.workerReported "boom")) :=
  fault_result_carries_only_fault_message
    [Stmt.consoleLog "first", Stmt.throwErr "boom"] []
    ⟨[], [], [⟨"log", "first"⟩]⟩ "boom" (by decide)

/-- C5 counterexample: a script that logs first and then faults produces a
failure whose logs array is exactly the single fault entry; the pre-fault
log entry is not among the returned logs, contrary to the claim that logs
captured up to the fault point are still returned. -/
theorem prefault_log_missing_from_fault_result :
    executeCode [Stmt.consoleLog "first", Stmt.throwErr "boom"] []
      = (EvalOutcome.err "boom" [⟨"error", "boom"⟩], [⟨"log", "first"⟩]) ∧
    (⟨"log", "first"⟩ : LogEntry) ∉ [(⟨"error", "boom"⟩ : LogEntry)] := by
  exact ⟨by decide, by decide⟩

/-- C4: the parameter list of the constructed function is exactly the
modeling vocabulary plus console, but a function built with the Function
constructor closes over the JS global scope, so the ambient capabilities
process (process control), eval and Function (dynamic code construction)
resolve inside the evaluated script; the injected names do shadow, yet the
ambient scope remains reachable, contrary to the isolation requirement. -/
theorem script_scope_reaches_ambient_capabilities :
    resolveName "Box" = NameResolution.injected ∧
    resolveName "console" = NameResolution.injected ∧
    resolveName "process" = NameResolution.ambient ∧
    resolveName "eval" = NameResolution.ambient ∧
    resolveName "Function" = NameResolution.ambient := by
  decide

/-- C6 (amended): meshToSTL and meshToOBJ fail exactly when the mesh object
itself, its vertices buffer, or its indices buffer is absent; no index-range
validation exists, so a mesh whose indices exceed the vertex count still
converts successfully. -/
theorem codec_fails_only_on_absent_buffers (m : Option CodecMesh) :
    ((∃ e, meshToSTL m = Except.error e) ↔
      (m = none ∨ ∃ c, m = some c ∧ (c.vertices = none ∨ c.indices = none))) ∧
    ((∃ e, meshToOBJ m = Except.error e) ↔
      (m = none ∨ ∃ c, m = some c ∧ (c.vertices = none ∨ c.indices = none))) := by
  rcases m with _ | ⟨v, i, n⟩
  · constructor <;> simp [meshToSTL, meshToOBJ]
  · cases v <;> cases i <;>
      constructor <;> simp [meshToSTL, meshToOBJ]

/-- C6 counterexample: a mesh with a single vertex and the out-of-range
index 5 in every slot is converted successfully by both codecs, contrary to
the claim that an out-of-range index makes them fail. -/
theorem out_of_range_index_not_rejected :
    (meshToSTL (some ⟨some [0, 0, 0], some [5, 5, 5], none⟩)).isOk = true ∧
    (meshToOBJ (some ⟨some [0, 0, 0], some [5, 5, 5], none⟩)).isOk = true ∧
    (5 : ℕ) ∈ [5, 5, 5] ∧
    ([0, 0, 0] : List ℚ).length / 3 = 1 ∧ ¬ (5 : ℕ) < 1 := by
  decide

/-- C10: generateMeshData is completely independent of the maxDeviation
resolution parameter — the parameter is received and never read (the sphere
branch uses the fixed segment count), so any two resolutions produce the
identical mesh. -/
theorem generateMeshData_independent_of_resolution (msin mcos : ℚ → ℚ)
    (mpi : ℚ) (shapes : List Shape) (d1 d2 : ℚ) :
    generateMeshData msin mcos mpi shapes d1
      = generateMeshData msin mcos mpi shapes d2 := rfl

theorem objVertexLines_flatMap (vts : List (ℚ × ℚ × ℚ)) :
    objVertexLines (vts.flatMap fun t => [t.1, t.2.1, t.2.2])
      = vts.map fun t => ObjLine.vtx (some t.1) (some t.2.1) (some t.2.2) := by
  induction vts with
  | nil => rfl
  | cons t rest ih =>
      rw [show ((t :: rest).flatMap fun t => [t.1, t.2.1, t.2.2])
            = t.1 :: t.2.1 :: t.2.2 ::
              (rest.flatMap fun t => [t.1, t.2.1, t.2.2]) from rfl]
      rw [show objVertexLines (t.1 :: t.2.1 :: t.2.2 ::
              (rest.flatMap fun t => [t.1, t.2.1, t.2.2]))
            = ObjLine.vtx (some t.1) (some t.2.1) (some t.2.2) ::
              objVertexLines (rest.flatMap fun t => [t.1, t.2.1, t.2.2])
            from rfl]
      rw [ih]
      rfl

theorem objNormalLines_flatMap (nrms : List (ℚ × ℚ × ℚ)) :
    objNormalLines (nrms.flatMap fun t => [t.1, t.2.1, t.2.2])
      = nrms.map fun t => ObjLine.nrm (some t.1) (some t.2.1) (some t.2.2) := by
  induction nrms with
  | nil => rfl
  | cons t rest ih =>
      rw [show ((t :: rest).flatMap fun t => [t.1, t.2.1, t.2.2])
            = t.1 :: t.2.1 :: t.2.2 ::
              (rest.flatMap fun t => [t.1, t.2.1, t.2.2]) from rfl]
      rw [show objNormalLines (t.1 :: t.2.1 :: t.2.2 ::
              (rest.flatMap fun t => [t.1, t.2.1, t.2.2]))
            = ObjLine.nrm (some t.1) (some t.2.1) (some t.2.2) ::
              objNormalLines (rest.flatMap fun t => [t.1, t.2.1, t.2.2])
            from rfl]
      rw [ih]
      rfl

theorem objFaceLines_flatMap (b : Bool) (idx : List (ℕ × ℕ × ℕ)) :
    objFaceLines b (idx.flatMap fun t => [t.1, t.2.1, t.2.2])
      = idx.map fun t =>
          if b then
            ObjLine.faceNormals (some (t.1 + 1)) (some (t.2.1 + 1))
              (some (t.2.2 + 1))
          else
            ObjLine.facePlain (some (t.1 + 1)) (some (t.2.1 + 1))
              (some (t.2.2 + 1)) := by
  induction idx with
  | nil => rfl
  | cons t rest ih =>
      rw [show ((t :: rest).flatMap fun t => [t.1, t.2.1, t.2.2])
            = t.1 :: t.2.1 :: t.2.2 ::
              (rest.flatMap fun t => [t.1, t.2.1, t.2.2]) from rfl]
      rw [show objFaceLines b (t.1 :: t.2.1 :: t.2.2 ::
              (rest.flatMap fun t => [t.1, t.2.1, t.2.2]))
            = (if b then
                ObjLine.faceNormals (some (t.1 + 1)) (some (t.2.1 + 1))
                  (some (t.2.2 + 1))
              else
                ObjLine.facePlain (some (t.1 + 1)) (some (t.2.1 + 1))
                  (some (t.2.2 + 1))) ::
              objFaceLines b (rest.flatMap fun t => [t.1, t.2.1, t.2.2])
            from rfl]
      rw [ih]
      rfl

/-- C9: for every well-formed mesh (buffers given as whole coordinate and
index triples), meshToOBJ emits the header, then one v line per vertex
triple in order, then one vn line per normal triple (none when normals are
absent), then one f line per index triple, and every face component is the
0-based mesh index plus one, doubled into the v//v form exactly when
normals are present. -/
theorem meshToOBJ_ordered_one_based_faces (vts nrms : List (ℚ × ℚ × ℚ))
    (idx : List (ℕ × ℕ × ℕ)) :
    objLines (vts.flatMap fun t => [t.1, t.2.1, t.2.2])
        (idx.flatMap fun t => [t.1, t.2.1, t.2.2])
        (nrms.flatMap fun t => [t.1, t.2.1, t.2.2])
      = ObjLine.header ::
          ((vts.map fun t => ObjLine.vtx (some t.1) (some t.2.1) (some t.2.2)) ++
           (nrms.map fun t => ObjLine.nrm (some t.1) (some t.2.1) (some t.2.2)) ++
           (idx.map fun t =>
             if nrms.isEmpty then
               ObjLine.facePlain (some (t.1 + 1)) (some (t.2.1 + 1))
                 (some (t.2.2 + 1))
             else
               ObjLine.faceNormals (some (t.1 + 1)) (some (t.2.1 + 1))
                 (some (t.2.2 + 1)))) ∧
    meshToOBJ (some ⟨some (vts.flatMap fun t => [t.1, t.2.1, t.2.2]),
        some (idx.flatMap fun t => [t.1, t.2.1, t.2.2]),
        some (nrms.flatMap fun t => [t.1, t.2.1, t.2.2])⟩)
      = Except.ok (String.join
          ((objLines (vts.flatMap fun t => [t.1, t.2.1, t.2.2])
              (idx.flatMap fun t => [t.1, t.2.1, t.2.2])
              (nrms.flatMap fun t => [t.1, t.2.1, t.2.2])).map
            fun l => renderObjLine l ++ "\n")) := by
  constructor
  · unfold objLines
    cases nrms with
    | nil =>
        simp [objVertexLines_flatMap, objFaceLines_flatMap, objNormalLines]
    | cons t rest =>
        have hlen : ((t :: rest).flatMap fun t => [t.1, t.2.1, t.2.2]).length > 0 := by
          simp [List.flatMap_cons]
        simp only [objVertexLines_flatMap, objNormalLines_flatMap,
          objFaceLines_flatMap, hlen, if_pos, List.isEmpty_cons]
        simp [hlen]
  · rfl

theorem translateChunks_length (t : ℚ × ℚ × ℚ) :
    ∀ l : List ℚ, (translateChunks t l).length = l.length
  | x :: y :: z :: rest => by
      rw [show translateChunks t (x :: y :: z :: rest)
            = (x + t.1) :: (y + t.2.1) :: (z + t.2.2) ::
              translateChunks t rest from rfl]
      simp [translateChunks_length t rest]
  | [] => rfl
  | [_] => rfl
  | [_, _] => rfl

theorem applyTranslation_length (tr : Option (ℚ × ℚ × ℚ)) (l : List ℚ) :
    (applyTranslation tr l).length = l.length := by
  cases tr with
  | none => rfl
  | some t => exact translateChunks_length t l
theorem length_flatMap_const {α β : Type} (g : α → List β) (c : ℕ)
    (h : ∀ a, (g a).length = c) :
    ∀ l : List α, (l.flatMap g).length = c * l.length := by
  intro l
  induction l with
  | nil => simp
  | cons a rest ih =>
      rw [show ((a :: rest).flatMap g) = g a ++ rest.flatMap g from rfl]
      simp [h a, ih]
      ring

theorem sphereVertices_length (msin mcos : ℚ → ℚ) (mpi r : ℚ) :
    (sphereVertices msin mcos mpi r).length = 867 := by
  have h3 : ∀ i : ℕ, ((List.range (sphereSegments + 1)).flatMap fun j =>
      let t := sphereVertexTriple msin mcos mpi r i j
      [t.1, t.2.1, t.2.2]).length = 51 := by
    intro i
    have hg := length_flatMap_const
      (fun j : ℕ =>
        let t := sphereVertexTriple msin mcos mpi r i j
        [t.1, t.2.1, t.2.2]) 3 (fun b => rfl)
      (List.range (sphereSegments + 1))
    rw [hg]
    simp [sphereSegments]
  unfold sphereVertices
  rw [length_flatMap_const _ 51 h3]
  simp [sphereSegments]

theorem sphereNormals_length (msin mcos : ℚ → ℚ) (mpi r : ℚ) :
    (sphereNormals msin mcos mpi r).length = 867 := by
  have h3 : ∀ i : ℕ, ((List.range (sphereSegments + 1)).flatMap fun j =>
      let t := sphereVertexTriple msin mcos mpi r i j
      [t.1 / r, t.2.1 / r, t.2.2 / r]).length = 51 := by
    intro i
    have hg := length_flatMap_const
      (fun j : ℕ =>
        let t := sphereVertexTriple msin mcos mpi r i j
        [t.1 / r, t.2.1 / r, t.2.2 / r]) 3 (fun b => rfl)
      (List.range (sphereSegments + 1))
    rw [hg]
    simp [sphereSegments]
  unfold sphereNormals
  rw [length_flatMap_const _ 51 h3]
  simp [sphereSegments]

theorem sphereIndices_bound : ∀ i ∈ sphereIndices, i < 289 := by
  intro i hi
  simp only [sphereIndices, sphereSegments, List.mem_flatMap,
    List.mem_range, List.mem_cons, List.not_mem_nil, or_false] at hi
  obtain ⟨a, ha, b, hb, hcase⟩ := hi
  omega

theorem shapeMeshData_spec (msin mcos : ℚ → ℚ) (mpi : ℚ) (s : Shape) :
    (shapeMeshData msin mcos mpi s).2.2.length
      = (shapeMeshData msin mcos mpi s).1.length ∧
    3 * ((shapeMeshData msin mcos mpi s).1.length / 3)
      = (shapeMeshData msin mcos mpi s).1.length ∧
    ∀ i ∈ (shapeMeshData msin mcos mpi s).2.1,
      i < (shapeMeshData msin mcos mpi s).1.length / 3 := by
  obtain ⟨kind, tr⟩ := s
  have hbox : ∀ w h d : ℚ, (boxVertices w h d).length = 24 := fun w h d => rfl
  cases kind with
  | box w h d =>
      refine ⟨?_, ?_, ?_⟩
      · show (boxNormals w h d).length = (boxVertices w h d).length
        simp [boxNormals]
      · show 3 * ((boxVertices w h d).length / 3) = (boxVertices w h d).length
        rw [hbox]
      · show ∀ i ∈ boxIndices, i < (boxVertices w h d).length / 3
        rw [hbox]
        decide
  | sphere r =>
      refine ⟨?_, ?_, ?_⟩
      · show (sphereNormals msin mcos mpi r).length
          = (sphereVertices msin mcos mpi r).length
        rw [sphereNormals_length, sphereVertices_length]
      · show 3 * ((sphereVertices msin mcos mpi r).length / 3)
          = (sphereVertices msin mcos mpi r).length
        rw [sphereVertices_length]
      · show ∀ i ∈ sphereIndices,
          i < (sphereVertices msin mcos mpi r).length / 3
        rw [sphereVertices_length]
        exact sphereIndices_bound
  | cylinder r h =>
      refine ⟨rfl, ?_, ?_⟩
      · show 3 * (defaultVertices.length / 3) = defaultVertices.length
        decide
      · show ∀ i ∈ defaultIndices, i < defaultVertices.length / 3
        decide
  | unionShape =>
      refine ⟨rfl, ?_, ?_⟩
      · show 3 * (defaultVertices.length / 3) = defaultVertices.length
        decide
      · show ∀ i ∈ defaultIndices, i < defaultVertices.length / 3
        decide
  | differenceShape =>
      refine ⟨rfl, ?_, ?_⟩
      · show 3 * (defaultVertices.length / 3) = defaultVertices.length
        decide
      · show ∀ i ∈ defaultIndices, i < defaultVertices.length / 3
        decide

theorem meshStep_preserves (msin mcos : ℚ → ℚ) (mpi : ℚ) (acc : MeshAcc)
    (s : Shape) (h1 : acc.normals.length = acc.vertices.length)
    (h2 : 3 * acc.vertexOffset = acc.vertices.length)
    (h3 : ∀ i ∈ acc.indices, i < acc.vertexOffset) :
    (meshStep msin mcos mpi acc s).normals.length
      = (meshStep msin mcos mpi acc s).vertices.length ∧
    3 * (meshStep msin mcos mpi acc s).vertexOffset
      = (meshStep msin mcos mpi acc s).vertices.length ∧
    ∀ i ∈ (meshStep msin mcos mpi acc s).indices,
      i < (meshStep msin mcos mpi acc s).vertexOffset := by
  obtain ⟨hn, hd, hb⟩ := shapeMeshData_spec msin mcos mpi s
  refine ⟨?_, ?_, ?_⟩
  · simp only [meshStep, List.length_append, applyTranslation_length]
    omega
  · simp only [meshStep, List.length_append, applyTranslation_length]
    omega
  · intro i hi
    simp only [meshStep, List.mem_append, List.mem_map] at hi
    simp only [meshStep, applyTranslation_length]
    rcases hi with hi | ⟨j, hj, rfl⟩
    · have := h3 i hi
      omega
    · have := hb j hj
      omega

theorem meshFold_invariant (msin mcos : ℚ → ℚ) (mpi : ℚ) :
    ∀ (shapes : List Shape) (acc : MeshAcc),
      acc.normals.length = acc.vertices.length →
      3 * acc.vertexOffset = acc.vertices.length →
      (∀ i ∈ acc.indices, i < acc.vertexOffset) →
      (shapes.foldl (meshStep msin mcos mpi) acc).normals.length
        = (shapes.foldl (meshStep msin mcos mpi) acc).vertices.length ∧
      3 * (shapes.foldl (meshStep msin mcos mpi) acc).vertexOffset
        = (shapes.foldl (meshStep msin mcos mpi) acc).vertices.length ∧
      ∀ i ∈ (shapes.foldl (meshStep msin mcos mpi) acc).indices,
        i < (shapes.foldl (meshStep msin mcos mpi) acc).vertexOffset := by
  intro shapes
  induction shapes with
  | nil => intro acc h1 h2 h3; exact ⟨h1, h2, h3⟩
  | cons s rest ih =>
      intro acc h1 h2 h3
      obtain ⟨g1, g2, g3⟩ := meshStep_preserves msin mcos mpi acc s h1 h2 h3
      simpa using ih (meshStep msin mcos mpi acc s) g1 g2 g3

/-- C7: for every shape list (any combination of Box, Sphere, Union,
Difference and default-branch shapes, translated or not) and any resolution,
the mesh generateMeshData produces satisfies the invariant: every index
value is strictly below the vertex count, and the normal buffer has the
same length as the vertex buffer. -/
theorem generated_mesh_satisfies_invariants (msin mcos : ℚ → ℚ)
    (mpi maxDeviation : ℚ) (shapes : List Shape) :
    (∀ i ∈ (generateMeshData msin mcos mpi shapes maxDeviation).indices,
      i < meshVertexCount (generateMeshData msin mcos mpi shapes maxDeviation)) ∧
    (generateMeshData msin mcos mpi shapes maxDeviation).normals.length
      = (generateMeshData msin mcos mpi shapes maxDeviation).vertices.length := by
  obtain ⟨h1, h2, h3⟩ := meshFold_invariant msin mcos mpi shapes
    ⟨[], [], [], 0⟩ rfl rfl (by simp)
  constructor
  · intro i hi
    have hidx : (generateMeshData msin mcos mpi shapes maxDeviation).indices
        = (shapes.foldl (meshStep msin mcos mpi) ⟨[], [], [], 0⟩).indices := rfl
    have hvtx : (generateMeshData msin mcos mpi shapes maxDeviation).vertices
        = (shapes.foldl (meshStep msin mcos mpi) ⟨[], [], [], 0⟩).vertices := rfl
    rw [hidx] at hi
    have hb := h3 i hi
    unfold meshVertexCount
    rw [hvtx, ← h2]
    omega
  · exact h1

/-- Witness for generated_mesh_satisfies_invariants on one Box shape under a
trivial numeric interpretation: index 5 occurs in the mesh and is below the
vertex count 8, and the buffers have equal lengths. -/
theorem generated_mesh_satisfies_invariants_witness :
    5 ∈ (generateMeshData (fun _ => 0) (fun _ => 0) 0
        [⟨ShapeKind.box 2 2 2, none⟩] 0).indices ∧
    5 < meshVertexCount (generateMeshData (fun _ => 0) (fun _ => 0) 0
        [⟨ShapeKind.box 2 2 2, none⟩] 0) ∧
    (generateMeshData (fun _ => 0) (fun _ => 0) 0
        [⟨ShapeKind.box 2 2 2, none⟩] 0).normals.length
      = (generateMeshData (fun _ => 0) (fun _ => 0) 0
        [⟨ShapeKind.box 2 2 2, none⟩] 0).vertices.length :=
  ⟨by decide,
   (generated_mesh_satisfies_invariants (fun _ => 0) (fun _ => 0) 0 0
      [⟨ShapeKind.box 2 2 2, none⟩]).1 5 (by decide),
   (generated_mesh_satisfies_invariants (fun _ => 0) (fun _ => 0) 0 0
      [⟨ShapeKind.box 2 2 2, none⟩]).2⟩

theorem skipWsParen_spec : ∀ cs rest : List Char,
    skipWsParen cs = some rest →
    ∃ ws, cs = ws ++ '(' :: rest ∧ ∀ c ∈ ws, isWsChar c = true := by
  intro cs
  induction cs with
  | nil => intro rest h; simp [skipWsParen] at h
  | cons c cs ih =>
      intro rest h
      unfold skipWsParen at h
      by_cases hc : c = '('
      · subst hc
        simp only [if_pos] at h
        simp only [Option.some.injEq] at h
        exact ⟨[], by simp [h], by simp⟩
      · by_cases hw : isWsChar c
        · simp only [hc, if_neg, hw, if_pos] at h
          obtain ⟨ws, hws, hall⟩ := ih rest h
          refine ⟨c :: ws, by simp [hws], ?_⟩
          intro x hx
          rcases List.mem_cons.mp hx with rfl | hx
          · exact hw
          · exact hall x hx
        · simp [hc, hw] at h

theorem skipWsParen_complete : ∀ ws rest : List Char,
    (∀ c ∈ ws, isWsChar c = true) →
    skipWsParen (ws ++ '(' :: rest) = some rest := by
  intro ws
  induction ws with
  | nil => intro rest _; simp [skipWsParen]
  | cons c ws ih =>
      intro rest hws
      have hc : isWsChar c = true := hws c (List.mem_cons_self c ws)
      have hcp : c ≠ '(' := by
        intro h
        rw [h] at hc
        simp [isWsChar] at hc
      simp only [List.cons_append, skipWsParen, if_neg hcp, hc, if_pos]
      exact ih rest fun x hx => hws x (List.mem_cons_of_mem c hx)

theorem matchCallAt_spec : ∀ n cs rest : List Char,
    matchCallAt n cs = some rest →
    ∃ ws, cs = n ++ ws ++ '(' :: rest ∧ ∀ c ∈ ws, isWsChar c = true := by
  intro n
  induction n with
  | nil =>
      intro cs rest h
      obtain ⟨ws, h1, h2⟩ := skipWsParen_spec cs rest h
      exact ⟨ws, by simpa using h1, h2⟩
  | cons x xs ih =>
      intro cs rest h
      cases cs with
      | nil => simp [matchCallAt] at h
      | cons c cs' =>
          unfold matchCallAt at h
          by_cases hc : c = x
          · simp only [hc, if_pos rfl] at h
            obtain ⟨ws, h1, h2⟩ := ih cs' rest h
            exact ⟨ws, by simp [hc, h1], h2⟩
          · simp [hc] at h

theorem matchCallAt_complete : ∀ n ws rest : List Char,
    (∀ c ∈ ws, isWsChar c = true) →
    matchCallAt n (n ++ ws ++ '(' :: rest) = some rest := by
  intro n
  induction n with
  | nil => intro ws rest hws; simpa [matchCallAt] using skipWsParen_complete ws rest hws
  | cons x xs ih =>
      intro ws rest hws
      simp only [List.cons_append, matchCallAt, if_pos rfl]
      exact ih ws rest hws

theorem tryNames_mem : ∀ (names : List String) (cs : List Char) (n : String)
    (rest : List Char), tryNames names cs = some (n, rest) →
    n ∈ names ∧ matchCallAt n.data cs = some rest := by
  intro names
  induction names with
  | nil => intro cs n rest h; simp [tryNames] at h
  | cons m ms ih =>
      intro cs n rest h
      unfold tryNames at h
      cases hm : matchCallAt m.data cs with
      | some r =>
          rw [hm] at h
          simp only [Option.some.injEq, Prod.mk.injEq] at h
          obtain ⟨rfl, rfl⟩ := h
          exact ⟨List.mem_cons_self m ms, hm⟩
      | none =>
          rw [hm] at h
          obtain ⟨h1, h2⟩ := ih cs n rest h
          exact ⟨List.mem_cons_of_mem m h1, h2⟩

theorem tryNames_none : ∀ (names : List String) (cs : List Char),
    tryNames names cs = none →
    ∀ n ∈ names, matchCallAt n.data cs = none := by
  intro names
  induction names with
  | nil => intro cs _ n hn; simp at hn
  | cons m ms ih =>
      intro cs h n hn
      unfold tryNames at h
      cases hm : matchCallAt m.data cs with
      | some r => rw [hm] at h; simp at h
      | none =>
          rw [hm] at h
          rcases List.mem_cons.mp hn with rfl | hn
          · exact hm
          · exact ih cs h n hn

theorem fnNames_prefix_free : ∀ a ∈ fnNames, ∀ b ∈ fnNames,
    a.data <+: b.data → a = b := by decide

theorem fnNames_no_interior : ∀ a ∈ fnNames, ∀ b ∈ fnNames,
    ¬ b.data <:+: a.data.drop 1 := by decide

theorem fnNames_chars : ∀ a ∈ fnNames, ∀ c ∈ a.data,
    isWsChar c = false ∧ c ≠ '(' := by decide

theorem fnNames_ne_nil : ∀ a ∈ fnNames, a.data ≠ [] := by decide

theorem callSite_mono_cons (n : List Char) (c : Char) (cs : List Char)
    (h : callSiteOccursIn n cs = true) :
    callSiteOccursIn n (c :: cs) = true := by
  unfold callSiteOccursIn
  rw [h]
  simp

theorem callSite_mono_append (n : List Char) : ∀ (u cs : List Char),
    callSiteOccursIn n cs = true → callSiteOccursIn n (u ++ cs) = true := by
  intro u
  induction u with
  | nil => intro cs h; simpa using h
  | cons c u ih =>
      intro cs h
      rw [List.cons_append]
      exact callSite_mono_cons n c (u ++ cs) (ih cs h)

theorem callSite_of_match (n cs : List Char)
    (h : (matchCallAt n cs).isSome = true) :
    callSiteOccursIn n cs = true := by
  cases cs with
  | nil => simpa [callSiteOccursIn] using h
  | cons c cs' =>
      unfold callSiteOccursIn
      rw [h]
      simp

theorem matchCallAt_none_of_head (n : String) (hn : n ∈ fnNames) (c : Char)
    (hc : isWsChar c = true ∨ c = '(') (cs : List Char) :
    matchCallAt n.data (c :: cs) = none := by
  cases hd : n.data with
  | nil => exact absurd hd (fnNames_ne_nil n hn)
  | cons x xs =>
      have hx := fnNames_chars n hn x (by simp [hd])
      have hcx : c ≠ x := by
        rcases hc with hw | hp
        · intro h; rw [h] at hw; rw [hx.1] at hw; exact Bool.false_ne_true hw
        · intro h; rw [hp] at h; exact hx.2 h.symm
      simp [matchCallAt, hcx]

theorem callSite_skip_ws (n : String) (hn : n ∈ fnNames) :
    ∀ (ws rest : List Char), (∀ c ∈ ws, isWsChar c = true) →
    callSiteOccursIn n.data (ws ++ '(' :: rest) = true →
    callSiteOccursIn n.data rest = true := by
  intro ws
  induction ws with
  | nil =>
      intro rest _ h
      simp only [List.nil_append] at h
      unfold callSiteOccursIn at h
      rw [matchCallAt_none_of_head n hn '(' (Or.inr rfl) rest] at h
      simpa using h
  | cons w ws ih =>
      intro rest hws h
      rw [List.cons_append] at h
      unfold callSiteOccursIn at h
      rw [matchCallAt_none_of_head n hn w
        (Or.inl (hws w (List.mem_cons_self w ws))) _] at h
      simp only [Option.isSome_none, Bool.false_or] at h
      exact ih rest (fun c hc => hws c (List.mem_cons_of_mem w hc)) h

theorem callSite_skip_inside (n : String) (hn : n ∈ fnNames) :
    ∀ (u : List Char),
    (∃ a ∈ fnNames, ∃ p : List Char, p ≠ [] ∧ a.data = p ++ u) →
    ∀ (ws rest : List Char), (∀ c ∈ ws, isWsChar c = true) →
    callSiteOccursIn n.data (u ++ ws ++ '(' :: rest) = true →
    callSiteOccursIn n.data rest = true := by
  intro u
  induction u with
  | nil =>
      intro _ ws rest hws h
      exact callSite_skip_ws n hn ws rest hws (by simpa using h)
  | cons c u' ih =>
      rintro ⟨a, ha, p, hp, hadata⟩ ws rest hws h
      obtain ⟨p0, p', rfl⟩ : ∃ p0 p', p = p0 :: p' := by
        cases p with
        | nil => exact absurd rfl hp
        | cons x y => exact ⟨x, y, rfl⟩
      have hS : (c :: u') ++ ws ++ '(' :: rest
          = c :: (u' ++ ws ++ '(' :: rest) := by
        simp
      rw [hS] at h
      unfold callSiteOccursIn at h
      cases hm : (matchCallAt n.data (c :: (u' ++ ws ++ '(' :: rest))).isSome with
      | false =>
          rw [hm] at h
          simp only [Bool.false_or] at h
          exact ih ⟨a, ha, (p0 :: p') ++ [c], by simp, by
            rw [hadata]; simp⟩ ws rest hws h
      | true =>
          exfalso
          obtain ⟨r, hr⟩ := Option.isSome_iff_exists.mp hm
          obtain ⟨ws', heq, _⟩ := matchCallAt_spec n.data _ r hr
          have hpre1 : n.data <+: c :: (u' ++ ws ++ '(' :: rest) := by
            refine ⟨ws' ++ '(' :: r, ?_⟩
            rw [heq]
            simp
          have hpre2 : (c :: u') <+: c :: (u' ++ ws ++ '(' :: rest) := by
            refine ⟨ws ++ '(' :: rest, ?_⟩
            simp
          rcases List.prefix_or_prefix_of_prefix hpre1 hpre2 with hA | hB
          · obtain ⟨t, ht⟩ := hA
            have hinf : n.data <:+: a.data.drop 1 := by
              refine ⟨p', t, ?_⟩
              rw [hadata]
              simp only [List.cons_append, List.drop_succ_cons, List.drop_zero]
              rw [← ht]
              simp
            exact fnNames_no_interior a ha n hn hinf
          · obtain ⟨e, he⟩ := hB
            cases e with
            | nil =>
                have hn' : n.data = c :: u' := by
                  rw [← he]
                  simp
                have hinf : n.data <:+: a.data.drop 1 := by
                  refine ⟨p', [], ?_⟩
                  rw [hadata]
                  simp only [List.cons_append, List.drop_succ_cons,
                    List.drop_zero]
                  rw [hn']
                  simp
                exact fnNames_no_interior a ha n hn hinf
            | cons e0 e' =>
                have he0 : e0 ∈ n.data := by
                  rw [← he]
                  simp
                have hche := fnNames_chars n hn e0 he0
                have hD : ws ++ '(' :: rest = e0 :: (e' ++ (ws' ++ '(' :: r)) := by
                  have h1 : (c :: u') ++ (ws ++ '(' :: rest)
                      = (c :: u') ++ (e0 :: (e' ++ (ws' ++ '(' :: r))) := by
                    calc (c :: u') ++ (ws ++ '(' :: rest)
                        = c :: (u' ++ ws ++ '(' :: rest) := by simp
                      _ = n.data ++ ws' ++ '(' :: r := heq
                      _ = (c :: u') ++ (e0 :: (e' ++ (ws' ++ '(' :: r))) := by
                          rw [← he]
                          simp
                  exact List.append_cancel_left h1
                cases ws with
                | nil =>
                    have : '(' = e0 := by
                      have := congrArg (fun l => l.head?) hD
                      simpa using this
                    exact hche.2 this.symm
                | cons w ws2 =>
                    have hwe : w = e0 := by
                      have := congrArg (fun l => l.head?) hD
                      simpa using this
                    have hw : isWsChar w = true :=
                      hws w (List.mem_cons_self w ws2)
                    rw [hwe, hche.1] at hw
                    exact Bool.false_ne_true hw

theorem matchCallAt_prefix_compat : ∀ (a b cs ra rb : List Char),
    matchCallAt a cs = some ra → matchCallAt b cs = some rb →
    a <+: b ∨ b <+: a := by
  intro a
  induction a with
  | nil => intro b cs ra rb _ _; exact Or.inl ( List.nil_prefix)
  | cons x xs ih =>
      intro b cs ra rb ha hb
      cases b with
      | nil => exact Or.inr ( List.nil_prefix)
      | cons y ys =>
          cases cs with
          | nil => simp [matchCallAt] at ha
          | cons c cs' =>
              unfold matchCallAt at ha hb
              by_cases hcx : c = x
              · by_cases hcy : c = y
                · rw [if_pos hcx] at ha
                  rw [if_pos hcy] at hb
                  have hxy : x = y := hcx ▸ hcy
                  rcases ih ys cs' ra rb ha hb with h | h
                  · exact Or.inl (List.cons_prefix_cons.mpr ⟨hxy, h⟩)
                  · exact Or.inr (List.cons_prefix_cons.mpr ⟨hxy.symm, h⟩)
                · rw [if_neg hcy] at hb
                  exact absurd hb (by simp)
              · rw [if_neg hcx] at ha
                exact absurd ha (by simp)

theorem scanAux_sound : ∀ (fuel : ℕ) (cs : List Char) (n : String),
    n ∈ scanAux fuel cs →
    n ∈ fnNames ∧ callSiteOccursIn n.data cs = true := by
  intro fuel
  induction fuel with
  | zero => intro cs n h; simp [scanAux] at h
  | succ fuel ih =>
      intro cs n h
      cases cs with
      | nil => simp [scanAux] at h
      | cons c cs' =>
          cases htry : tryNames fnNames (c :: cs') with
          | none =>
              have hgoal : scanAux (fuel + 1) (c :: cs') = scanAux fuel cs' := by
                simp only [scanAux, htry]
              rw [hgoal] at h
              obtain ⟨h1, h2⟩ := ih cs' n h
              exact ⟨h1, callSite_mono_cons _ c _ h2⟩
          | some pr =>
              obtain ⟨n₀, rest⟩ := pr
              have hgoal : scanAux (fuel + 1) (c :: cs')
                  = n₀ :: scanAux fuel rest := by
                simp only [scanAux, htry]
              rw [hgoal] at h
              obtain ⟨hn₀, hmatch⟩ := tryNames_mem _ _ _ _ htry
              rcases List.mem_cons.mp h with rfl | h
              · exact ⟨hn₀, callSite_of_match _ _ (by rw [hmatch]; rfl)⟩
              · obtain ⟨h1, h2⟩ := ih rest n h
                refine ⟨h1, ?_⟩
                obtain ⟨ws', heq, _⟩ := matchCallAt_spec n₀.data _ rest hmatch
                rw [heq]
                have hstep := callSite_mono_cons n.data '(' rest h2
                have hall := callSite_mono_append n.data (n₀.data ++ ws')
                  ('(' :: rest) hstep
                simpa using hall

theorem scanAux_complete : ∀ (fuel : ℕ) (cs : List Char),
    cs.length ≤ fuel → ∀ n ∈ fnNames,
    callSiteOccursIn n.data cs = true → n ∈ scanAux fuel cs := by
  intro fuel
  induction fuel with
  | zero =>
      intro cs hlen n hn hocc
      have hcs : cs = [] := List.length_eq_zero.mp (Nat.le_zero.mp hlen)
      subst hcs
      cases hd : n.data with
      | nil => exact absurd hd (fnNames_ne_nil n hn)
      | cons x xs =>
          unfold callSiteOccursIn at hocc
          rw [hd] at hocc
          simp [matchCallAt] at hocc
  | succ fuel ih =>
      intro cs hlen n hn hocc
      cases cs with
      | nil =>
          cases hd : n.data with
          | nil => exact absurd hd (fnNames_ne_nil n hn)
          | cons x xs =>
              unfold callSiteOccursIn at hocc
              rw [hd] at hocc
              simp [matchCallAt] at hocc
      | cons c cs' =>
          cases htry : tryNames fnNames (c :: cs') with
          | none =>
              have hgoal : scanAux (fuel + 1) (c :: cs') = scanAux fuel cs' := by
                simp only [scanAux, htry]
              rw [hgoal]
              have hlen2 : cs'.length ≤ fuel := by
                simp only [List.length_cons] at hlen
                omega
              apply ih cs' hlen2 n hn
              have hm := tryNames_none _ _ htry n hn
              unfold callSiteOccursIn at hocc
              rw [hm] at hocc
              simpa using hocc
          | some pr =>
              obtain ⟨n₀, rest⟩ := pr
              obtain ⟨hn₀, hmatch⟩ := tryNames_mem _ _ _ _ htry
              have hgoal : scanAux (fuel + 1) (c :: cs')
                  = n₀ :: scanAux fuel rest := by
                simp only [scanAux, htry]
              rw [hgoal]
              by_cases hEq : n = n₀
              · subst hEq
                exact List.mem_cons_self n _
              · apply List.mem_cons_of_mem
                obtain ⟨ws', heq, hws'⟩ := matchCallAt_spec n₀.data _ rest hmatch
                have hlen2 : rest.length ≤ fuel := by
                  have hlq := congrArg List.length heq
                  simp only [List.length_cons, List.length_append] at hlq
                  simp only [List.length_cons] at hlen
                  omega
                apply ih rest hlen2 n hn
                rw [heq] at hocc
                cases hd : n₀.data with
                | nil => exact absurd hd (fnNames_ne_nil n₀ hn₀)
                | cons x xs =>
                    rw [hd] at hocc
                    have hS : (x :: xs) ++ ws' ++ '(' :: rest
                        = x :: (xs ++ ws' ++ '(' :: rest) := by simp
                    rw [hS] at hocc
                    unfold callSiteOccursIn at hocc
                    cases hm2 : (matchCallAt n.data
                        (x :: (xs ++ ws' ++ '(' :: rest))).isSome with
                    | true =>
                        exfalso
                        obtain ⟨r2, hr2⟩ := Option.isSome_iff_exists.mp hm2
                        have hm0 : matchCallAt (x :: xs)
                            (x :: (xs ++ ws' ++ '(' :: rest)) = some rest := by
                          rw [heq, hd, hS] at hmatch
                          exact hmatch
                        rcases matchCallAt_prefix_compat n.data (x :: xs) _
                          r2 rest hr2 hm0 with hab | hba
                        · rw [← hd] at hab
                          exact hEq (fnNames_prefix_free n hn n₀ hn₀ hab)
                        · rw [← hd] at hba
                          exact hEq (fnNames_prefix_free n₀ hn₀ n hn hba).symm
                    | false =>
                        rw [hm2] at hocc
                        simp only [Bool.false_or] at hocc
                        exact callSite_skip_inside n hn xs
                          ⟨n₀, hn₀, [x], by simp, by simp [hd]⟩
                          ws' rest hws' hocc

theorem mem_foldl_dedupPush : ∀ (l acc : List String) (x : String),
    x ∈ l.foldl dedupPush acc ↔ x ∈ acc ∨ x ∈ l := by
  intro l
  induction l with
  | nil => intro acc x; simp
  | cons a l ih =>
      intro acc x
      rw [List.foldl_cons, ih (dedupPush acc a) x]
      unfold dedupPush
      by_cases ha : a ∈ acc
      · rw [if_pos ha]
        constructor
        · rintro (h | h)
          · exact Or.inl h
          · exact Or.inr (List.mem_cons_of_mem a h)
        · rintro (h | h)
          · exact Or.inl h
          · rcases List.mem_cons.mp h with rfl | h
            · exact Or.inl ha
            · exact Or.inr h
      · rw [if_neg ha]
        constructor
        · rintro (h | h)
          · rcases List.mem_append.mp h with h | h
            · exact Or.inl h
            · rcases List.mem_singleton.mp h with rfl
              exact Or.inr (List.mem_cons_self x l)
          · exact Or.inr (List.mem_cons_of_mem a h)
        · rintro (h | h)
          · exact Or.inl (List.mem_append.mpr (Or.inl h))
          · rcases List.mem_cons.mp h with rfl | h
            · exact Or.inl (List.mem_append.mpr (Or.inr (by simp)))
            · exact Or.inr h

theorem nodup_foldl_dedupPush : ∀ (l acc : List String), acc.Nodup →
    (l.foldl dedupPush acc).Nodup := by
  intro l
  induction l with
  | nil => intro acc h; simpa using h
  | cons a l ih =>
      intro acc h
      rw [List.foldl_cons]
      apply ih
      unfold dedupPush
      by_cases ha : a ∈ acc
      · rw [if_pos ha]; exact h
      · rw [if_neg ha]
        simp [List.nodup_append, h, ha]

/-- C8: validateScript is a pure static check: it leaves the service state
untouched (no worker is created and nothing is executed — the embedding of
the method is a state-preserving pure function of the script text and the
parse outcome), its valid flag is true exactly when the host parse reports
no syntax error, and usedFunctions lists, each at most once, exactly the
known vocabulary names that occur in the text immediately followed by
optional whitespace and an opening parenthesis; in particular on the script
Box(10,10,10); it reports usedFunctions = [Box] with valid = true. -/
theorem validateScript_pure_static_check (s : ServiceState) (code : String)
    (parseOutcome : Option SyntaxErrorInfo) :
    (validateScript s code parseOutcome).2 = s ∧
    (validateScript s code parseOutcome).1.valid = parseOutcome.isNone ∧
    (validateScript s code parseOutcome).1.usedFunctions.Nodup ∧
    (∀ n : String,
      n ∈ (validateScript s code parseOutcome).1.usedFunctions ↔
        n ∈ fnNames ∧ callSiteOccursIn n.data code.data = true) ∧
    (validateScript initialService "Box(10,10,10);" none).1.usedFunctions
      = ["Box"] ∧
    (validateScript initialService "Box(10,10,10);" none).1.valid = true := by
  refine ⟨rfl, ?_, ?_, ?_, by decide, by decide⟩
  · cases parseOutcome <;> rfl
  · exact nodup_foldl_dedupPush _ [] List.nodup_nil
  · intro n
    show n ∈ (scanUsedFunctions code).foldl dedupPush [] ↔ _
    rw [mem_foldl_dedupPush]
    simp only [List.not_mem_nil, false_or]
    constructor
    · intro h
      exact scanAux_sound _ _ n h
    · rintro ⟨h1, h2⟩
      exact scanAux_complete code.data.length code.data (Nat.le_refl _) n h1 h2
